import Mathlib

set_option maxRecDepth 100000

/-!
Verification of the SeisMonitor deduplication and ingestion core.

This file gives a shallow embedding, over exact rationals, of the parts of
the repository that the checked properties concern:

* quake_stream/deduplicator.py — match scoring, greedy time/magnitude
  clustering, preferred-record selection, unified IDs, weighted centroids;
* quake_stream/region_priority.py — region classification and the
  region-aware source priority lists;
* quake_stream/parsers/quakeml.py — magnitude selection and the top-level
  parse behaviour;
* gcp/ingester/source_pipeline.py — the fetch retry loop and the
  parse / dead-letter stage.

Floating point arithmetic of the source is modelled by exact rational
arithmetic.  The great-circle distance function haversine_km is imported by
the source from quake_stream.geo, a module that is not under src; all
statements about distances are therefore parametric in the distance
function, constrained only by properties the spec formula guarantees
(symmetry, nonnegativity, vanishing on identical coordinates).
-/

/-! ## Byte-level SHA-256 over natural numbers

The deduplicator derives unified event IDs from hashlib.sha256 hex digests.
The hash is reproduced here bit-exactly, with 32-bit words represented as
natural numbers reduced modulo 2 ^ 32 and bitwise operations implemented by
structural recursion on 32 bit positions. -/

/-- Bitwise exclusive or of the low k bits of two naturals. -/
def bxor32 : ℕ → ℕ → ℕ → ℕ
  | 0, _, _ => 0
  | k + 1, a, b => (if (a % 2 + b % 2) = 1 then 1 else 0) + 2 * bxor32 k (a / 2) (b / 2)

/-- Bitwise conjunction of the low k bits of two naturals. -/
def band32 : ℕ → ℕ → ℕ → ℕ
  | 0, _, _ => 0
  | k + 1, a, b => (if a % 2 = 1 ∧ b % 2 = 1 then 1 else 0) + 2 * band32 k (a / 2) (b / 2)

/-- Three-way 32-bit exclusive or. -/
def xor3 (a b c : ℕ) : ℕ := bxor32 32 (bxor32 32 a b) c

/-- Right rotation of a 32-bit word by k positions. -/
def rotr (k x : ℕ) : ℕ := x / 2 ^ k + (x % 2 ^ k) * 2 ^ (32 - k)

/-- Bitwise complement of a 32-bit word. -/
def not32 (x : ℕ) : ℕ := 4294967295 - x % 2 ^ 32

/-- Compression function Sigma0 of SHA-256. -/
def bigSigma0 (x : ℕ) : ℕ := xor3 (rotr 2 x) (rotr 13 x) (rotr 22 x)

/-- Compression function Sigma1 of SHA-256. -/
def bigSigma1 (x : ℕ) : ℕ := xor3 (rotr 6 x) (rotr 11 x) (rotr 25 x)

/-- Message schedule function sigma0 of SHA-256. -/
def smallSigma0 (x : ℕ) : ℕ := xor3 (rotr 7 x) (rotr 18 x) (x / 2 ^ 3)

/-- Message schedule function sigma1 of SHA-256. -/
def smallSigma1 (x : ℕ) : ℕ := xor3 (rotr 17 x) (rotr 19 x) (x / 2 ^ 10)

/-- Choice function of SHA-256. -/
def chFn (e f g : ℕ) : ℕ := bxor32 32 (band32 32 e f) (band32 32 (not32 e) g)

/-- Majority function of SHA-256. -/
def majFn (a b c : ℕ) : ℕ := xor3 (band32 32 a b) (band32 32 a c) (band32 32 b c)

/-- Round constants of SHA-256. -/
def shaK : List ℕ :=
  [1116352408, 1899447441, 3049323471, 3921009573, 961987163, 1508970993,
   2453635748, 2870763221, 3624381080, 310598401, 607225278, 1426881987,
   1925078388, 2162078206, 2614888103, 3248222580, 3835390401, 4022224774,
   264347078, 604807628, 770255983, 1249150122, 1555081692, 1996064986,
   2554220882, 2821834349, 2952996808, 3210313671, 3336571891, 3584528711,
   113926993, 338241895, 666307205, 773529912, 1294757372, 1396182291,
   1695183700, 1986661051, 2177026350, 2456956037, 2730485921, 2820302411,
   3259730800, 3345764771, 3516065817, 3600352804, 4094571909, 275423344,
   430227734, 506948616, 659060556, 883997877, 958139571, 1322822218,
   1537002063, 1747873779, 1955562222, 2024104815, 2227730452, 2361852424,
   2428436474, 2756734187, 3204031479, 3329325298]

/-- Initial hash state of SHA-256. -/
def shaH0 : List ℕ :=
  [0x6a09e667, 0xbb67ae85, 0x3c6ef372, 0xa54ff53a, 0x510e527f, 0x9b05688c, 0x1f83d9ab, 0x5be0cd19]

/-- UTF-8 encoding of one code point, as Python str.encode produces. -/
def utf8Bytes (n : ℕ) : List ℕ :=
  if n < 0x80 then [n]
  else if n < 0x800 then [0xC0 + n / 64, 0x80 + n % 64]
  else if n < 0x10000 then [0xE0 + n / 4096, 0x80 + n / 64 % 64, 0x80 + n % 64]
  else [0xF0 + n / 262144, 0x80 + n / 4096 % 64, 0x80 + n / 64 % 64, 0x80 + n % 64]

/-- UTF-8 byte sequence of a string. -/
def strBytes (s : String) : List ℕ := (s.data.map (fun c => utf8Bytes c.toNat)).foldr (· ++ ·) []

/-- Big-endian 64-bit encoding of a natural number. -/
def be64 (n : ℕ) : List ℕ :=
  [n / 2 ^ 56 % 256, n / 2 ^ 48 % 256, n / 2 ^ 40 % 256, n / 2 ^ 32 % 256,
   n / 2 ^ 24 % 256, n / 2 ^ 16 % 256, n / 2 ^ 8 % 256, n % 256]

/-- SHA-256 padding: append 0x80, zeros, and the 64-bit bit length. -/
def padMsg (msg : List ℕ) : List ℕ :=
  msg ++ [0x80] ++ List.replicate ((119 - msg.length % 64) % 64) 0 ++ be64 (8 * msg.length)

/-- Split a byte list into 64-byte blocks; the first argument is fuel. -/
def chunks64 : ℕ → List ℕ → List (List ℕ)
  | 0, _ => []
  | _ + 1, [] => []
  | f + 1, l => l.take 64 :: chunks64 f (l.drop 64)

/-- Pack bytes into big-endian 32-bit words. -/
def toWords : List ℕ → List ℕ
  | b0 :: b1 :: b2 :: b3 :: rest => (b0 * 2 ^ 24 + b1 * 2 ^ 16 + b2 * 2 ^ 8 + b3) :: toWords rest
  | _ => []

/-- Extend a 16-word block to the 64-word message schedule. -/
def extendWords : ℕ → List ℕ → List ℕ
  | 0, ws => ws
  | k + 1, ws =>
      extendWords k (ws ++ [(smallSigma1 (ws.getD (ws.length - 2) 0) + ws.getD (ws.length - 7) 0
        + smallSigma0 (ws.getD (ws.length - 15) 0) + ws.getD (ws.length - 16) 0) % 2 ^ 32])

/-- One SHA-256 round, acting on the eight-word working state. -/
def roundStep (st : List ℕ) (kw : ℕ × ℕ) : List ℕ :=
  match st with
  | [a, b, c, d, e, f, g, h] =>
      (fun t1 t2 => [(t1 + t2) % 2 ^ 32, a, b, c, (d + t1) % 2 ^ 32, e, f, g])
        ((h + bigSigma1 e + chFn e f g + kw.1 + kw.2) % 2 ^ 32)
        ((bigSigma0 a + majFn a b c) % 2 ^ 32)
  | st => st

/-- Compress one 64-byte block into the hash state. -/
def compressBlock (hs : List ℕ) (block : List ℕ) : List ℕ :=
  (fun st => (hs.zip st).map (fun p => (p.1 + p.2) % 2 ^ 32))
    ((shaK.zip (extendWords 48 (toWords block))).foldl roundStep hs)

/-- SHA-256 digest of a string as eight 32-bit words. -/
def sha256Words (s : String) : List ℕ :=
  (fun msg => (chunks64 msg.length msg).foldl compressBlock shaH0) (padMsg (strBytes s))

/-- Lowercase hex character for a value below 16. -/
def hexChar (d : ℕ) : Char := if d < 10 then Char.ofNat (48 + d) else Char.ofNat (87 + d)

/-- Eight lowercase hex characters of one 32-bit word, most significant first. -/
def wordHex (w : ℕ) : List Char :=
  [hexChar (w / 16 ^ 7 % 16), hexChar (w / 16 ^ 6 % 16), hexChar (w / 16 ^ 5 % 16),
   hexChar (w / 16 ^ 4 % 16), hexChar (w / 16 ^ 3 % 16), hexChar (w / 16 ^ 2 % 16),
   hexChar (w / 16 % 16), hexChar (w % 16)]

/-- Lowercase hex digest of SHA-256, as hashlib.sha256(x).hexdigest() returns. -/
def sha256Hex (s : String) : String := String.mk (((sha256Words s).map wordHex).foldr (· ++ ·) [])

/-! ## String utilities

Python lowercases magnitude types and sorts event uid strings by code
point.  Lean string primitives for these do not reduce well inside the
kernel, so ASCII lowering and code-point lexicographic comparison are
defined from scratch on the underlying character lists. -/

/-- ASCII lowercase of one character, as Python str.lower acts on ASCII. -/
def lowerChar (c : Char) : Char :=
  if 65 ≤ c.toNat ∧ c.toNat ≤ 90 then Char.ofNat (c.toNat + 32) else c

/-- ASCII lowercase of a string. -/
def lowerStr (s : String) : String := String.mk (s.data.map lowerChar)

/-- Lexicographic order on lists of naturals, total and antisymmetric. -/
def natListLe : List ℕ → List ℕ → Bool
  | [], _ => true
  | _ :: _, [] => false
  | a :: as, b :: bs => if a < b then true else if b < a then false else natListLe as bs

/-- Code-point lexicographic comparison of strings, the order Python sorted
uses on str values. -/
def strLeB (a b : String) : Bool := natListLe (a.data.map Char.toNat) (b.data.map Char.toNat)

/-- Propositional form of the string comparison. -/
def strRel (a b : String) : Prop := strLeB a b = true

instance : DecidableRel strRel := fun _ _ => instDecidableEqBool _ _

/-! ## Data model

EventRecord mirrors the dataclass in quake_stream/deduplicator.py lines
31-44; origin_time_utc is represented as rational seconds since an epoch,
which is all the arithmetic on datetimes the deduplicator performs
(differences via total_seconds and ordering for sorting). -/

/-- Lightweight record for clustering, from deduplicator.py lines 31-44. -/
structure EventRecord where
  event_uid : String
  source : String
  origin_time_utc : ℚ
  latitude : ℚ
  longitude : ℚ
  depth_km : ℚ
  magnitude_value : ℚ
  magnitude_type : String
  place : Option String
  region : Option String
  status : String
deriving DecidableEq, Repr

instance : Inhabited EventRecord :=
  ⟨⟨"", "", 0, 0, 0, 0, 0, "", none, none, ""⟩⟩

/-- Group of events representing the same physical earthquake, from
deduplicator.py lines 47-55. -/
structure Cluster where
  members : List EventRecord
  best_score : ℚ := 0
deriving DecidableEq, Repr

/-- First member of the cluster, the reference point for score comparisons
(deduplicator.py lines 53-55; members is never empty in the source). -/
def Cluster.anchor (c : Cluster) : EventRecord := c.members.headI

/-- Type of great-circle distance functions standing in for haversine_km. -/
abbrev DistFn := EventRecord → EventRecord → ℚ

/-- Modelled from the spec: haversine_km is imported from quake_stream.geo,
a module absent from src.  The spec formula 2 R asin(sqrt(...)) yields 0 on
identical coordinates, is symmetric and nonnegative.  Every concrete
scenario in this file places events on identical coordinates, so this
stand-in returns 0 on equal coordinate pairs and 200 km otherwise. -/
def coincKm (a b : EventRecord) : ℚ :=
  if a.latitude = b.latitude ∧ a.longitude = b.longitude then 0 else 200

/-! ## Matching thresholds, deduplicator.py lines 24-28 -/

def MAX_TIME_DIFF_SEC : ℚ := 30.0

def MAX_DISTANCE_KM : ℚ := 100.0

def MAX_MAG_DIFF : ℚ := 0.5

def MATCH_SCORE_THRESHOLD : ℚ := 0.6

/-- Similarity score between two events, from compute_match_score,
deduplicator.py lines 58-77, parametric in the distance function. -/
def compute_match_score (dist : DistFn) (a b : EventRecord) : ℚ :=
  if |a.origin_time_utc - b.origin_time_utc| > MAX_TIME_DIFF_SEC then 0
  else if dist a b > MAX_DISTANCE_KM then 0
  else if |a.magnitude_value - b.magnitude_value| > MAX_MAG_DIFF then 0
  else
    0.4 * max 0 (1 - |a.origin_time_utc - b.origin_time_utc| / MAX_TIME_DIFF_SEC)
      + 0.4 * max 0 (1 - dist a b / MAX_DISTANCE_KM)
      + 0.2 * max 0 (1 - |a.magnitude_value - b.magnitude_value| / MAX_MAG_DIFF)

/-- Stable ascending sort by origin time, as sorted(events, key=...) in
deduplicator.py lines 99, 132 and 164. -/
def sortByTime (events : List EventRecord) : List EventRecord :=
  List.insertionSort (fun a b => a.origin_time_utc ≤ b.origin_time_utc) events

/-- Replace the element at one position of a list, the value-level effect of
mutating the chosen best cluster in the source. -/
def updateAt {α : Type} : ℕ → (α → α) → List α → List α
  | _, _, [] => []
  | 0, f, x :: xs => f x :: xs
  | i + 1, f, x :: xs => x :: updateAt i f xs

/-- Scan of the inner loop of _sub_cluster_time_mag, deduplicator.py lines
136-148: walk existing clusters, keeping the index and score of the best
cluster so far; a cluster is examined only when the time and magnitude
pre-gates against its anchor pass, and replaces the current best exactly
when its score meets the threshold and strictly exceeds the best score. -/
def subScan (dist : DistFn) (e : EventRecord) (cs : List Cluster) : Option ℕ × ℚ :=
  cs.enum.foldl (fun acc p =>
    if |e.origin_time_utc - p.2.anchor.origin_time_utc| ≤ MAX_TIME_DIFF_SEC
        ∧ |e.magnitude_value - p.2.anchor.magnitude_value| ≤ MAX_MAG_DIFF then
      (fun score => if MATCH_SCORE_THRESHOLD ≤ score ∧ acc.2 < score then (some p.1, score) else acc)
        (compute_match_score dist e p.2.anchor)
    else acc) (none, 0)

/-- Scan of the inner loop of _cluster_events_greedy, deduplicator.py lines
168-175: identical to subScan but with no time/magnitude pre-gate. -/
def greedyScan (dist : DistFn) (e : EventRecord) (cs : List Cluster) : Option ℕ × ℚ :=
  cs.enum.foldl (fun acc p =>
    (fun score => if MATCH_SCORE_THRESHOLD ≤ score ∧ acc.2 < score then (some p.1, score) else acc)
      (compute_match_score dist e p.2.anchor)) (none, 0)

/-- Commit the scan result, deduplicator.py lines 150-154 and 177-181:
append the event to the best cluster and raise its best_score, or open a
new cluster holding only the event. -/
def applyJoin (cs : List Cluster) (e : EventRecord) : Option ℕ × ℚ → List Cluster
  | (some i, s) => updateAt i (fun c => ⟨c.members ++ [e], max c.best_score s⟩) cs
  | (none, _) => cs ++ [⟨[e], 0⟩]

/-- Sub-cluster spatially co-located events by time and magnitude, from
_sub_cluster_time_mag, deduplicator.py lines 126-156. -/
def sub_cluster_time_mag (dist : DistFn) (events : List EventRecord) : List Cluster :=
  (sortByTime events).foldl (fun cs e => applyJoin cs e (subScan dist e cs)) []

/-- Greedy chronological clustering, the fallback when sklearn is missing,
from _cluster_events_greedy, deduplicator.py lines 159-183. -/
def cluster_events_greedy (dist : DistFn) (events : List EventRecord) : List Cluster :=
  (sortByTime events).foldl (fun cs e => applyJoin cs e (greedyScan dist e cs)) []

/-! ## Region-aware source priority, region_priority.py -/

/-- Classify a coordinate into a broad geographic region, from
classify_region, region_priority.py lines 11-32. -/
def classify_region (lat lon : ℚ) : String :=
  if -170 ≤ lon ∧ lon ≤ -30 then "americas"
  else if -30 < lon ∧ lon ≤ 45 ∧ 30 ≤ lat then "europe"
  else if -20 ≤ lon ∧ lon ≤ 55 ∧ lat < 30 then "africa"
  else if 45 < lon ∨ lon < -170 then "asia_pacific"
  else "global"

/-- Region-specific source priority orders, region_priority.py lines 36-42. -/
def REGION_PRIORITIES (region : String) : List String :=
  if region = "americas" then ["usgs", "emsc", "gfz", "isc", "ipgp", "geonet"]
  else if region = "europe" then ["emsc", "gfz", "usgs", "isc", "ipgp", "geonet"]
  else if region = "africa" then ["isc", "emsc", "ipgp", "usgs", "gfz", "geonet"]
  else if region = "asia_pacific" then ["isc", "usgs", "geonet", "emsc", "gfz", "ipgp"]
  else ["usgs", "emsc", "isc", "gfz", "ipgp", "geonet"]

/-- Source priority order for a location, from get_source_priority,
region_priority.py lines 45-52; classify_region only returns keys of the
priority table, so the .get fallback to the global list is the identity
path modelled by the final else of REGION_PRIORITIES. -/
def get_source_priority (lat lon : ℚ) : List String :=
  REGION_PRIORITIES (classify_region lat lon)

/-! ## Canonical record selection, deduplicator.py lines 186-205 -/

/-- Simple-mean latitude of the cluster members (deduplicator.py line 195). -/
def centroidLat (c : Cluster) : ℚ := (c.members.map (·.latitude)).sum / c.members.length

/-- Simple-mean longitude of the cluster members (deduplicator.py line 196). -/
def centroidLon (c : Cluster) : ℚ := (c.members.map (·.longitude)).sum / c.members.length

/-- Region-aware priority list at the cluster centroid (line 197). -/
def clusterPriority (c : Cluster) : List String :=
  get_source_priority (centroidLat c) (centroidLon c)

/-- Position of the source of an event in a priority list, from source_rank,
deduplicator.py lines 199-203: list.index on hit, the list length when the
source is absent. -/
def sourceRank (priority : List String) (e : EventRecord) : ℕ :=
  (priority.findIdx? (· == e.source)).getD priority.length

/-- Python min over a nonempty list with a key function: the first element
attaining the minimal key, folding left and replacing the current best only
on a strictly smaller key. -/
def minByFirst {α : Type} (f : α → ℕ) (x : α) (xs : List α) : α :=
  xs.foldl (fun acc y => if f y < f acc then y else acc) x

/-- Reviewed members of a cluster (deduplicator.py line 191). -/
def reviewedMembers (c : Cluster) : List EventRecord :=
  c.members.filter (fun m => m.status == "reviewed")

/-- Candidate set: reviewed members if any, else all members (line 192). -/
def clusterCandidates (c : Cluster) : List EventRecord :=
  if reviewedMembers c = [] then c.members else reviewedMembers c

/-- Select the preferred event of a cluster, from _select_preferred,
deduplicator.py lines 186-205; none models the crash Python min would
raise on an empty cluster, which the source never builds. -/
def select_preferred (c : Cluster) : Option EventRecord :=
  match clusterCandidates c with
  | [] => none
  | x :: xs => some (minByFirst (sourceRank (clusterPriority c)) x xs)

/-! ## Unified event ID, deduplicator.py lines 208-212 -/

/-- Member uids sorted ascending and joined with a pipe (lines 210-211). -/
def sortedUidJoin (c : Cluster) : String :=
  String.intercalate "|" (List.insertionSort strRel (c.members.map (·.event_uid)))

/-- Stable unified event ID, from _compute_unified_id, deduplicator.py
lines 208-212. -/
def compute_unified_id (c : Cluster) : String :=
  "UE-" ++ (sha256Hex (sortedUidJoin c)).take 16

/-! ## Weighted centroid, deduplicator.py lines 215-240 -/

/-- Accumulate weighted coordinate sums and the total weight over members,
deduplicator.py lines 221-234; the weight of a member is
max 1 (priority length - rank of its source). -/
def weightedSums (priority : List String) (members : List EventRecord) : ℚ × ℚ × ℚ × ℚ :=
  members.foldl (fun acc m =>
    (fun weight =>
      (acc.1 + m.latitude * weight, acc.2.1 + m.longitude * weight,
       acc.2.2.1 + m.depth_km * weight, acc.2.2.2 + weight))
      (max 1 ((priority.length : ℚ) - sourceRank priority m)))
    (0, 0, 0, 0)

/-- Weighted mean latitude, longitude and depth of a cluster, from
_weighted_mean, deduplicator.py lines 215-240, with the total_weight == 0
fallback to the anchor coordinates. -/
def weighted_mean (c : Cluster) : ℚ × ℚ × ℚ :=
  (fun s =>
    if s.2.2.2 = 0 then (c.anchor.latitude, c.anchor.longitude, c.anchor.depth_km)
    else (s.1 / s.2.2.2, s.2.1 / s.2.2.2, s.2.2.1 / s.2.2.2))
    (weightedSums (clusterPriority c) c.members)

/-! ## Fetch retry loop, source_pipeline.py lines 59-81

The loop runs attempt = 0 .. max_retries; a failing attempt with
attempt < max_retries sleeps retry_backoff_base ** attempt seconds before
the next attempt.  The outcome of each HTTP attempt is abstracted into a
boolean function of the attempt index (true: the GET returns a body,
including the empty body of a 204; false: HTTPStatusError or
RequestError). -/

/-- One pass of the retry loop from the given attempt index with the given
number of attempts remaining; returns the number of attempts performed, the
list of sleeps in seconds, and whether a fetch succeeded. -/
def fetchAux (base : ℚ) (ok : ℕ → Bool) : ℕ → ℕ → ℕ × List ℚ × Bool
  | _, 0 => (0, [], false)
  | attempt, r + 1 =>
    if ok attempt then (1, [], true)
    else if r = 0 then (1, [], false)
    else
      (fun rec1 => (rec1.1 + 1, base ^ attempt :: rec1.2.1, rec1.2.2))
        (fetchAux base ok (attempt + 1) r)

/-- Retry loop of _fetch_source, source_pipeline.py lines 59-81: up to
max_retries + 1 attempts starting at attempt 0. -/
def fetchSource (base : ℚ) (ok : ℕ → Bool) (max_retries : ℕ) : ℕ × List ℚ × Bool :=
  fetchAux base ok 0 (max_retries + 1)

/-! ## Parse stage of the ingestion pipeline, source_pipeline.py 124-149 -/

/-- Dead-letter row as assembled in source_pipeline.py lines 131-136 and
142-147. -/
structure DeadLetter where
  source : String
  source_event_id : Option String
  raw_payload : String
  errors : List String
deriving DecidableEq, Repr

/-- Normalized event as far as the parse stage inspects it: the validator
is kept parametric, and the stage reads only source_event_id and
raw_payload when building per-event dead letters. -/
structure NEvent where
  source_event_id : String
  raw_payload : String
deriving DecidableEq, Repr

/-- Parse stage of run_source_pipeline, source_pipeline.py lines 124-149:
a parser exception produces a single dead letter carrying the first 10000
characters of the payload, and no events; otherwise each parsed event
either passes the validator or is diverted to a dead letter carrying the
first 5000 characters of its raw_payload. -/
def parseStage (validate : NEvent → List String) (source : String) (raw : String)
    (parsed : Except String (List NEvent)) : List NEvent × List DeadLetter :=
  match parsed with
  | .error msg => ([], [⟨source, none, raw.take 10000, ["Parse error: " ++ msg]⟩])
  | .ok events =>
      events.foldl (fun acc ev =>
        (fun errs =>
          if errs = [] then (acc.1 ++ [ev], acc.2)
          else (acc.1, acc.2 ++ [⟨source, some ev.source_event_id, ev.raw_payload.take 5000, errs⟩]))
          (validate ev)) ([], [])

/-- Top level of QuakeMLParser.parse, quakeml.py lines 31-58: a blank
payload yields no events, an ET.ParseError is caught and yields no events,
and a well-formed document yields the per-event results, abstracted here as
a parameter.  The function is total: it never raises, so the enclosing
try of the pipeline never sees an exception from it. -/
def quakemlParseTop (blank : Bool) (etResult : Option (List NEvent)) : List NEvent :=
  if blank then []
  else
    match etResult with
    | none => []
    | some events => events

/-- Ingestion parse stage specialised to a QuakeML source: the parser is
total, so the stage always receives an ok value, from source_pipeline.py
lines 127-137 combined with quakeml.py lines 31-38. -/
def pipelineQuakeml (validate : NEvent → List String) (source : String) (raw : String)
    (blank : Bool) (etResult : Option (List NEvent)) : List NEvent × List DeadLetter :=
  parseStage validate source raw (.ok (quakemlParseTop blank etResult))

/-! ## QuakeML magnitude selection, quakeml.py lines 77-84, 110-115
and 200-217 -/

/-- Magnitude element of a QuakeML event as far as selection reads it: the
text of its type child (none when absent or empty) and its mag/value. -/
structure MagnitudeEl where
  mtype : Option String
  mval : ℚ
deriving DecidableEq, Repr

/-- Magnitude type preference order for ISC, quakeml.py line 18. -/
def MAG_PREFERENCE : List String := ["mw", "mb", "ms"]

/-- Preference score of a magnitude element, from the score closure in
_select_best_magnitude, quakeml.py lines 209-215: the index of the
lower-cased type in the preference list, or the list length when the type
is absent from it or missing. -/
def magScore (m : MagnitudeEl) : ℕ :=
  match m.mtype with
  | some t =>
      (fun tl =>
        match MAG_PREFERENCE.findIdx? (· == tl) with
        | some i => i
        | none => MAG_PREFERENCE.length) (lowerStr t)
  | none => MAG_PREFERENCE.length

/-- Select the best magnitude when no preferredMagnitudeID is present,
from _select_best_magnitude, quakeml.py lines 200-217: Python min by
score, which keeps the earliest element on ties. -/
def select_best_magnitude (mags : List MagnitudeEl) : Option MagnitudeEl :=
  match mags with
  | [] => none
  | m :: rest => some (minByFirst magScore m rest)

/-- Magnitude value and type as _parse_event stores them, quakeml.py lines
110-115: the value verbatim and the type lower-cased, defaulting to ml when
missing. -/
def parsedMagnitude (m : MagnitudeEl) : ℚ × String :=
  (m.mval, lowerStr (m.mtype.getD "ml"))

/-! ## Numeric values of the thresholds -/

lemma maxTime_eq : MAX_TIME_DIFF_SEC = 30 := by norm_num [MAX_TIME_DIFF_SEC]

lemma maxDist_eq : MAX_DISTANCE_KM = 100 := by norm_num [MAX_DISTANCE_KM]

lemma maxMag_eq : MAX_MAG_DIFF = 1 / 2 := by norm_num [MAX_MAG_DIFF]

lemma thr_eq : MATCH_SCORE_THRESHOLD = 3 / 5 := by norm_num [MATCH_SCORE_THRESHOLD]

/-! ## Properties of the match score -/

lemma cms_zero_of_gate (dist : DistFn) (a b : EventRecord)
    (h : MAX_TIME_DIFF_SEC < |a.origin_time_utc - b.origin_time_utc|
      ∨ MAX_DISTANCE_KM < dist a b
      ∨ MAX_MAG_DIFF < |a.magnitude_value - b.magnitude_value|) :
    compute_match_score dist a b = 0 := by
  unfold compute_match_score
  split_ifs with h1 h2 h3
  · rfl
  · rfl
  · rfl
  · rcases h with h | h | h
    · exact absurd h h1
    · exact absurd h h2
    · exact absurd h h3

lemma cms_gates_of_pos (dist : DistFn) (a b : EventRecord)
    (h : 0 < compute_match_score dist a b) :
    |a.origin_time_utc - b.origin_time_utc| ≤ MAX_TIME_DIFF_SEC
      ∧ dist a b ≤ MAX_DISTANCE_KM
      ∧ |a.magnitude_value - b.magnitude_value| ≤ MAX_MAG_DIFF := by
  unfold compute_match_score at h
  split_ifs at h with h1 h2 h3
  · exact absurd h (lt_irrefl 0)
  · exact absurd h (lt_irrefl 0)
  · exact absurd h (lt_irrefl 0)
  · exact ⟨not_lt.1 h1, not_lt.1 h2, not_lt.1 h3⟩

lemma cms_formula (dist : DistFn) (a b : EventRecord)
    (h1 : |a.origin_time_utc - b.origin_time_utc| ≤ MAX_TIME_DIFF_SEC)
    (h2 : dist a b ≤ MAX_DISTANCE_KM)
    (h3 : |a.magnitude_value - b.magnitude_value| ≤ MAX_MAG_DIFF) :
    compute_match_score dist a b =
      0.4 * (1 - |a.origin_time_utc - b.origin_time_utc| / MAX_TIME_DIFF_SEC)
        + 0.4 * (1 - dist a b / MAX_DISTANCE_KM)
        + 0.2 * (1 - |a.magnitude_value - b.magnitude_value| / MAX_MAG_DIFF) := by
  rw [maxTime_eq] at h1
  rw [maxDist_eq] at h2
  rw [maxMag_eq] at h3
  unfold compute_match_score
  rw [if_neg (not_lt.2 (by rw [maxTime_eq]; exact h1)),
      if_neg (not_lt.2 (by rw [maxDist_eq]; exact h2)),
      if_neg (not_lt.2 (by rw [maxMag_eq]; exact h3))]
  rw [max_eq_right (by rw [maxTime_eq]; rw [sub_nonneg, div_le_one (by norm_num : (0:ℚ) < 30)]; exact h1),
      max_eq_right (by rw [maxDist_eq]; rw [sub_nonneg, div_le_one (by norm_num : (0:ℚ) < 100)]; exact h2),
      max_eq_right (by rw [maxMag_eq]; rw [sub_nonneg, div_le_one (by norm_num : (0:ℚ) < 1/2)]; exact h3)]

lemma cms_nonneg (dist : DistFn) (a b : EventRecord) :
    0 ≤ compute_match_score dist a b := by
  unfold compute_match_score
  split_ifs
  · exact le_refl 0
  · exact le_refl 0
  · exact le_refl 0
  · have m1 := le_max_left 0 (1 - |a.origin_time_utc - b.origin_time_utc| / MAX_TIME_DIFF_SEC)
    have m2 := le_max_left 0 (1 - dist a b / MAX_DISTANCE_KM)
    have m3 := le_max_left 0 (1 - |a.magnitude_value - b.magnitude_value| / MAX_MAG_DIFF)
    have c1 : (0:ℚ) ≤ 0.4 := by norm_num
    have c2 : (0:ℚ) ≤ 0.2 := by norm_num
    nlinarith [mul_nonneg c1 m1, mul_nonneg c1 m2, mul_nonneg c2 m3]

lemma cms_le_one (dist : DistFn) (a b : EventRecord) (hnn : 0 ≤ dist a b) :
    compute_match_score dist a b ≤ 1 := by
  unfold compute_match_score
  split_ifs
  · norm_num
  · norm_num
  · norm_num
  · have q1 : (0:ℚ) ≤ |a.origin_time_utc - b.origin_time_utc| / MAX_TIME_DIFF_SEC := by
      rw [maxTime_eq]; exact div_nonneg (abs_nonneg _) (by norm_num)
    have q2 : (0:ℚ) ≤ dist a b / MAX_DISTANCE_KM := by
      rw [maxDist_eq]; exact div_nonneg hnn (by norm_num)
    have q3 : (0:ℚ) ≤ |a.magnitude_value - b.magnitude_value| / MAX_MAG_DIFF := by
      rw [maxMag_eq]; exact div_nonneg (abs_nonneg _) (by norm_num)
    have m1 : max 0 (1 - |a.origin_time_utc - b.origin_time_utc| / MAX_TIME_DIFF_SEC) ≤ 1 :=
      max_le (by norm_num) (by linarith)
    have m2 : max 0 (1 - dist a b / MAX_DISTANCE_KM) ≤ 1 :=
      max_le (by norm_num) (by linarith)
    have m3 : max 0 (1 - |a.magnitude_value - b.magnitude_value| / MAX_MAG_DIFF) ≤ 1 :=
      max_le (by norm_num) (by linarith)
    have m1n := le_max_left 0 (1 - |a.origin_time_utc - b.origin_time_utc| / MAX_TIME_DIFF_SEC)
    have m2n := le_max_left 0 (1 - dist a b / MAX_DISTANCE_KM)
    have m3n := le_max_left 0 (1 - |a.magnitude_value - b.magnitude_value| / MAX_MAG_DIFF)
    nlinarith

lemma cms_symm (dist : DistFn) (a b : EventRecord) (hs : dist a b = dist b a) :
    compute_match_score dist a b = compute_match_score dist b a := by
  unfold compute_match_score
  rw [abs_sub_comm a.origin_time_utc b.origin_time_utc,
      abs_sub_comm a.magnitude_value b.magnitude_value, hs]

/-! ## Properties of the modelled distance stand-in -/

lemma coincKm_self (x : EventRecord) : coincKm x x = 0 := by simp [coincKm]

lemma coincKm_symm (x y : EventRecord) : coincKm x y = coincKm y x := by
  unfold coincKm
  split_ifs with h1 h2 h2
  · rfl
  · exact absurd ⟨h1.1.symm, h1.2.symm⟩ h2
  · exact absurd ⟨h2.1.symm, h2.2.symm⟩ h1
  · rfl

lemma coincKm_nonneg (x y : EventRecord) : 0 ≤ coincKm x y := by
  unfold coincKm; split_ifs <;> norm_num

/-! ## Concrete events used by witnesses and counterexamples -/

/-- Event at the epoch, magnitude 5.0, from the two-source scenario. -/
def evA : EventRecord :=
  ⟨"usgs:eq1", "usgs", 0, 35, -120, 10, 5, "mw", none, none, "automatic"⟩

/-- Same position and magnitude as evA, exactly 30 seconds later. -/
def evB30 : EventRecord :=
  ⟨"emsc:eq1", "emsc", 30, 35, -120, 10, 5, "mw", none, none, "automatic"⟩

/-- Same position and time as evA, magnitude 4.6. -/
def evLow : EventRecord :=
  ⟨"gfz:eq1", "gfz", 0, 35, -120, 10, 4.6, "mb", none, none, "automatic"⟩

/-- Same position and time as evA, magnitude 5.4. -/
def evHigh : EventRecord :=
  ⟨"isc:eq1", "isc", 0, 35, -120, 10, 5.4, "mb", none, none, "reviewed"⟩

/-- C5.  For every pair of events, compute_match_score is 0 when the time
difference exceeds 30 s, the distance exceeds 100 km or the magnitude
difference exceeds 0.5; otherwise it equals
0.4 (1 - dt/30) + 0.4 (1 - dist/100) + 0.2 (1 - dmag/0.5); it always lies
in [0, 1]; and it is symmetric in its two arguments.  The distance function
is any function with the symmetry and nonnegativity the haversine formula
of the spec guarantees. -/
theorem claim_C5 (dist : DistFn)
    (hsymm : ∀ x y, dist x y = dist y x) (hnn : ∀ x y, 0 ≤ dist x y)
    (a b : EventRecord) :
    (MAX_TIME_DIFF_SEC < |a.origin_time_utc - b.origin_time_utc|
        ∨ MAX_DISTANCE_KM < dist a b
        ∨ MAX_MAG_DIFF < |a.magnitude_value - b.magnitude_value| →
      compute_match_score dist a b = 0)
    ∧ (|a.origin_time_utc - b.origin_time_utc| ≤ MAX_TIME_DIFF_SEC →
        dist a b ≤ MAX_DISTANCE_KM →
        |a.magnitude_value - b.magnitude_value| ≤ MAX_MAG_DIFF →
        compute_match_score dist a b =
          0.4 * (1 - |a.origin_time_utc - b.origin_time_utc| / MAX_TIME_DIFF_SEC)
            + 0.4 * (1 - dist a b / MAX_DISTANCE_KM)
            + 0.2 * (1 - |a.magnitude_value - b.magnitude_value| / MAX_MAG_DIFF))
    ∧ 0 ≤ compute_match_score dist a b
    ∧ compute_match_score dist a b ≤ 1
    ∧ compute_match_score dist a b = compute_match_score dist b a :=
  ⟨cms_zero_of_gate dist a b,
   cms_formula dist a b,
   cms_nonneg dist a b,
   cms_le_one dist a b (hnn a b),
   cms_symm dist a b (hsymm a b)⟩

/-- Witness for C5 at the coincident-coordinate distance model and the
events evA, evLow. -/
theorem claim_C5_witness :
    (MAX_TIME_DIFF_SEC < |evA.origin_time_utc - evLow.origin_time_utc|
        ∨ MAX_DISTANCE_KM < coincKm evA evLow
        ∨ MAX_MAG_DIFF < |evA.magnitude_value - evLow.magnitude_value| →
      compute_match_score coincKm evA evLow = 0)
    ∧ (|evA.origin_time_utc - evLow.origin_time_utc| ≤ MAX_TIME_DIFF_SEC →
        coincKm evA evLow ≤ MAX_DISTANCE_KM →
        |evA.magnitude_value - evLow.magnitude_value| ≤ MAX_MAG_DIFF →
        compute_match_score coincKm evA evLow =
          0.4 * (1 - |evA.origin_time_utc - evLow.origin_time_utc| / MAX_TIME_DIFF_SEC)
            + 0.4 * (1 - coincKm evA evLow / MAX_DISTANCE_KM)
            + 0.2 * (1 - |evA.magnitude_value - evLow.magnitude_value| / MAX_MAG_DIFF))
    ∧ 0 ≤ compute_match_score coincKm evA evLow
    ∧ compute_match_score coincKm evA evLow ≤ 1
    ∧ compute_match_score coincKm evA evLow = compute_match_score coincKm evLow evA :=
  claim_C5 coincKm coincKm_symm coincKm_nonneg evA evLow

/-! ## Equivalence of the greedy fallback and the sub-clustering pass -/

lemma foldl_congr_fun {α β : Type} (f g : β → α → β) (h : ∀ b a, f b a = g b a) :
    ∀ (l : List α) (b : β), l.foldl f b = l.foldl g b := by
  intro l
  induction l with
  | nil => intro b; rfl
  | cons x xs ih => intro b; simp only [List.foldl_cons, h, ih]

lemma subScan_eq_greedyScan (dist : DistFn) (e : EventRecord) (cs : List Cluster) :
    subScan dist e cs = greedyScan dist e cs := by
  unfold subScan greedyScan
  apply foldl_congr_fun
  intro acc p
  by_cases hg : |e.origin_time_utc - p.2.anchor.origin_time_utc| ≤ MAX_TIME_DIFF_SEC
      ∧ |e.magnitude_value - p.2.anchor.magnitude_value| ≤ MAX_MAG_DIFF
  · rw [if_pos hg]
  · rw [if_neg hg]
    have h0 : compute_match_score dist e p.2.anchor = 0 := by
      apply cms_zero_of_gate
      rcases not_and_or.1 hg with h | h
      · exact Or.inl (not_le.1 h)
      · exact Or.inr (Or.inr (not_le.1 h))
    simp only [h0]
    rw [if_neg]
    rintro ⟨hle, -⟩
    rw [thr_eq] at hle
    norm_num at hle

lemma greedy_eq_sub (dist : DistFn) (events : List EventRecord) :
    cluster_events_greedy dist events = sub_cluster_time_mag dist events := by
  unfold cluster_events_greedy sub_cluster_time_mag
  exact foldl_congr_fun _ _
    (fun cs e => by rw [subScan_eq_greedyScan]) (sortByTime events) []

/-- C6.  For every list of events, the greedy fallback clustering produces
exactly the same list of clusters, with the same membership, order and
best_score, as the time/magnitude sub-clustering procedure applied to the
whole list: the extra time and magnitude pre-gates of the latter only skip
clusters whose match score would be 0, which the score threshold rejects
anyway.  The statement holds for every distance function, in particular
for the haversine distance of the spec. -/
theorem claim_C6 (dist : DistFn) (events : List EventRecord) :
    cluster_events_greedy dist events = sub_cluster_time_mag dist events :=
  greedy_eq_sub dist events

/-! ## Chain invariant of the clustering passes -/

/-- Membership bounds of one event against a cluster anchor: the three
gates compute_match_score enforces before producing a positive score. -/
def nearAnchor (dist : DistFn) (m a : EventRecord) : Prop :=
  |m.origin_time_utc - a.origin_time_utc| ≤ MAX_TIME_DIFF_SEC
    ∧ dist m a ≤ MAX_DISTANCE_KM
    ∧ |m.magnitude_value - a.magnitude_value| ≤ MAX_MAG_DIFF

/-- Invariant of the cluster list during the greedy fold: every cluster is
nonempty and every member is within the gate bounds of its anchor. -/
def clusterInv (dist : DistFn) (cs : List Cluster) : Prop :=
  ∀ c ∈ cs, c.members ≠ [] ∧ ∀ m ∈ c.members, nearAnchor dist m c.anchor

lemma greedyScan_go (dist : DistFn) (e : EventRecord) :
    ∀ (l : List (ℕ × Cluster)) (acc : Option ℕ × ℚ) (j : ℕ),
      (l.foldl (fun acc p =>
        (fun score => if MATCH_SCORE_THRESHOLD ≤ score ∧ acc.2 < score
          then (some p.1, score) else acc)
        (compute_match_score dist e p.2.anchor)) acc).1 = some j →
      (acc.1 = some j ∧
        (l.foldl (fun acc p =>
          (fun score => if MATCH_SCORE_THRESHOLD ≤ score ∧ acc.2 < score
            then (some p.1, score) else acc)
          (compute_match_score dist e p.2.anchor)) acc).2 = acc.2)
      ∨ ∃ c, (j, c) ∈ l ∧
          (l.foldl (fun acc p =>
            (fun score => if MATCH_SCORE_THRESHOLD ≤ score ∧ acc.2 < score
              then (some p.1, score) else acc)
            (compute_match_score dist e p.2.anchor)) acc).2
            = compute_match_score dist e c.anchor
          ∧ MATCH_SCORE_THRESHOLD ≤
            (l.foldl (fun acc p =>
              (fun score => if MATCH_SCORE_THRESHOLD ≤ score ∧ acc.2 < score
                then (some p.1, score) else acc)
              (compute_match_score dist e p.2.anchor)) acc).2 := by
  intro l
  induction l with
  | nil => intro acc j h; exact Or.inl ⟨h, rfl⟩
  | cons p l ih =>
      intro acc j h
      simp only [List.foldl_cons] at h ⊢
      by_cases hc : MATCH_SCORE_THRESHOLD ≤ compute_match_score dist e p.2.anchor
          ∧ acc.2 < compute_match_score dist e p.2.anchor
      · rw [if_pos hc] at h ⊢
        rcases ih (some p.1, compute_match_score dist e p.2.anchor) j h with ⟨h1, h2⟩ | ⟨c, hc1, hc2, hc3⟩
        · have hj : p.1 = j := Option.some.inj h1
          subst hj
          refine Or.inr ⟨p.2, ?_, by rw [h2], by rw [h2]; exact hc.1⟩
          have hp : (p.1, p.2) = p := rfl
          rw [hp]
          exact List.mem_cons_self _ _
        · exact Or.inr ⟨c, List.mem_cons_of_mem _ hc1, hc2, hc3⟩
      · rw [if_neg hc] at h ⊢
        rcases ih acc j h with ⟨h1, h2⟩ | ⟨c, hc1, hc2, hc3⟩
        · exact Or.inl ⟨h1, h2⟩
        · exact Or.inr ⟨c, List.mem_cons_of_mem _ hc1, hc2, hc3⟩

lemma greedyScan_sound (dist : DistFn) (e : EventRecord) (cs : List Cluster) (i : ℕ)
    (h : (greedyScan dist e cs).1 = some i) :
    ∃ c, cs.get? i = some c
      ∧ (greedyScan dist e cs).2 = compute_match_score dist e c.anchor
      ∧ MATCH_SCORE_THRESHOLD ≤ (greedyScan dist e cs).2 := by
  unfold greedyScan at h ⊢
  rcases greedyScan_go dist e cs.enum (none, 0) i h with ⟨h1, -⟩ | ⟨c, hc1, hc2, hc3⟩
  · exact absurd h1 (by simp)
  · exact ⟨c, List.mk_mem_enum_iff_get?.1 hc1, hc2, hc3⟩

lemma mem_updateAt {α : Type} (f : α → α) :
    ∀ (i : ℕ) (l : List α) (y : α), y ∈ updateAt i f l →
      y ∈ l ∨ ∃ x, l.get? i = some x ∧ y = f x := by
  intro i l
  induction l generalizing i with
  | nil => intro y h; exact absurd h (by simp [updateAt])
  | cons x xs ih =>
      intro y h
      cases i with
      | zero =>
          rcases List.mem_cons.1 h with h | h
          · exact Or.inr ⟨x, rfl, h⟩
          · exact Or.inl (List.mem_cons_of_mem _ h)
      | succ i =>
          rcases List.mem_cons.1 h with h | h
          · exact Or.inl (h ▸ List.mem_cons_self _ _)
          · rcases ih i y h with h | ⟨z, hz1, hz2⟩
            · exact Or.inl (List.mem_cons_of_mem _ h)
            · exact Or.inr ⟨z, hz1, hz2⟩

lemma headI_append_of_ne_nil {α : Type} [Inhabited α] (l l2 : List α) (h : l ≠ []) :
    (l ++ l2).headI = l.headI := by
  cases l with
  | nil => exact absurd rfl h
  | cons x xs => rfl

lemma applyJoin_inv (dist : DistFn) (hdist0 : ∀ x, dist x x = 0)
    (cs : List Cluster) (e : EventRecord) (hinv : clusterInv dist cs) :
    clusterInv dist (applyJoin cs e (subScan dist e cs)) := by
  rw [subScan_eq_greedyScan]
  rcases hscan : greedyScan dist e cs with ⟨o, s⟩
  cases o with
  | none =>
      intro c hc
      rcases List.mem_append.1 hc with hc | hc
      · exact hinv c hc
      · rcases List.mem_singleton.1 hc with rfl
        refine ⟨by simp, ?_⟩
        intro m hm
        rcases List.mem_singleton.1 hm with rfl
        refine ⟨?_, ?_, ?_⟩
        · simp [Cluster.anchor, maxTime_eq]
        · simp only [Cluster.anchor, List.headI]
          rw [hdist0 m, maxDist_eq]; norm_num
        · simp [Cluster.anchor, maxMag_eq]
  | some i =>
      obtain ⟨c0, hget, hs, hthr⟩ := greedyScan_sound dist e cs i (by rw [hscan])
      rw [hscan] at hs hthr
      simp only at hs hthr
      have hpos : 0 < compute_match_score dist e c0.anchor := by
        rw [← hs]; rw [thr_eq] at hthr; linarith
      obtain ⟨hg1, hg2, hg3⟩ := cms_gates_of_pos dist e c0.anchor hpos
      have hc0mem : c0 ∈ cs := List.get?_mem hget
      obtain ⟨hc0ne, hc0inv⟩ := hinv c0 hc0mem
      intro c hc
      rcases mem_updateAt _ i cs c hc with hcin | ⟨x, hx1, hx2⟩
      · exact hinv c hcin
      · have hxc : x = c0 := by rw [hget] at hx1; exact (Option.some.inj hx1).symm
        subst hxc
        subst hx2
        refine ⟨by simp, ?_⟩
        have hanch : (⟨x.members ++ [e], max x.best_score s⟩ : Cluster).anchor = x.anchor := by
          simp only [Cluster.anchor]
          exact headI_append_of_ne_nil x.members [e] hc0ne
        intro m hm
        rw [hanch]
        rcases List.mem_append.1 hm with hm | hm
        · exact hc0inv m hm
        · rcases List.mem_singleton.1 hm with rfl
          exact ⟨hg1, hg2, hg3⟩

lemma sub_cluster_inv (dist : DistFn) (hdist0 : ∀ x, dist x x = 0)
    (events : List EventRecord) :
    clusterInv dist (sub_cluster_time_mag dist events) := by
  unfold sub_cluster_time_mag
  suffices h : ∀ (l : List EventRecord) (cs : List Cluster), clusterInv dist cs →
      clusterInv dist (l.foldl (fun cs e => applyJoin cs e (subScan dist e cs)) cs) by
    refine h _ [] ?_
    intro c hc
    exact absurd hc (List.not_mem_nil c)
  intro l
  induction l with
  | nil => intro cs h; exact h
  | cons e l ih =>
      intro cs h
      simp only [List.foldl_cons]
      exact ih _ (applyJoin_inv dist hdist0 cs e h)

/-- C2 as amended.  In every cluster produced by the time/magnitude
sub-clustering pass (invoked by cluster_events on each spatial group) or by
the greedy fallback, every member is within 30 s, 100 km and 0.5 magnitude
units of the anchor of its cluster; the claimed bound on arbitrary pairs of
members holds only through this chain to the anchor.  The distance function
is any function vanishing on identical events, as the haversine formula of
the spec does. -/
theorem claim_C2 (dist : DistFn) (hdist0 : ∀ x, dist x x = 0)
    (events : List EventRecord) :
    (∀ c ∈ sub_cluster_time_mag dist events, ∀ m ∈ c.members,
        |m.origin_time_utc - c.anchor.origin_time_utc| ≤ MAX_TIME_DIFF_SEC
          ∧ dist m c.anchor ≤ MAX_DISTANCE_KM
          ∧ |m.magnitude_value - c.anchor.magnitude_value| ≤ MAX_MAG_DIFF)
    ∧ (∀ c ∈ cluster_events_greedy dist events, ∀ m ∈ c.members,
        |m.origin_time_utc - c.anchor.origin_time_utc| ≤ MAX_TIME_DIFF_SEC
          ∧ dist m c.anchor ≤ MAX_DISTANCE_KM
          ∧ |m.magnitude_value - c.anchor.magnitude_value| ≤ MAX_MAG_DIFF) := by
  constructor
  · intro c hc m hm
    exact (sub_cluster_inv dist hdist0 events c hc).2 m hm
  · intro c hc m hm
    rw [greedy_eq_sub] at hc
    exact (sub_cluster_inv dist hdist0 events c hc).2 m hm

/-- Witness for C2 at the coincident-coordinate distance model and the
three-event aftershock scenario. -/
theorem claim_C2_witness :
    (∀ c ∈ sub_cluster_time_mag coincKm [evA, evLow, evHigh], ∀ m ∈ c.members,
        |m.origin_time_utc - c.anchor.origin_time_utc| ≤ MAX_TIME_DIFF_SEC
          ∧ coincKm m c.anchor ≤ MAX_DISTANCE_KM
          ∧ |m.magnitude_value - c.anchor.magnitude_value| ≤ MAX_MAG_DIFF)
    ∧ (∀ c ∈ cluster_events_greedy coincKm [evA, evLow, evHigh], ∀ m ∈ c.members,
        |m.origin_time_utc - c.anchor.origin_time_utc| ≤ MAX_TIME_DIFF_SEC
          ∧ coincKm m c.anchor ≤ MAX_DISTANCE_KM
          ∧ |m.magnitude_value - c.anchor.magnitude_value| ≤ MAX_MAG_DIFF) :=
  claim_C2 coincKm coincKm_self [evA, evLow, evHigh]

/-! ## Concrete evaluation of the clustering pass -/

lemma subScan_nil (dist : DistFn) (e : EventRecord) : subScan dist e [] = (none, 0) := rfl

lemma subScan_one (dist : DistFn) (e : EventRecord) (c : Cluster) :
    subScan dist e [c] =
      if |e.origin_time_utc - c.anchor.origin_time_utc| ≤ MAX_TIME_DIFF_SEC
          ∧ |e.magnitude_value - c.anchor.magnitude_value| ≤ MAX_MAG_DIFF then
        if MATCH_SCORE_THRESHOLD ≤ compute_match_score dist e c.anchor
            ∧ 0 < compute_match_score dist e c.anchor then
          (some 0, compute_match_score dist e c.anchor)
        else (none, 0)
      else (none, 0) := rfl

lemma applyJoin_none (cs : List Cluster) (e : EventRecord) (q : ℚ) :
    applyJoin cs e (none, q) = cs ++ [⟨[e], 0⟩] := rfl

lemma applyJoin_zero (c : Cluster) (cs : List Cluster) (e : EventRecord) (s : ℚ) :
    applyJoin (c :: cs) e (some 0, s) = ⟨c.members ++ [e], max c.best_score s⟩ :: cs := rfl

lemma cms_evLow_evA : compute_match_score coincKm evLow evA = 21 / 25 := by
  have habs : |evLow.magnitude_value - evA.magnitude_value| = 2 / 5 := by
    simp only [evLow, evA]
    rw [abs_of_nonpos (by norm_num)]
    norm_num
  have htime : |evLow.origin_time_utc - evA.origin_time_utc| = 0 := by
    simp only [evLow, evA]; norm_num
  have hdist : coincKm evLow evA = 0 := by simp [coincKm, evLow, evA]
  rw [cms_formula coincKm evLow evA (by rw [htime, maxTime_eq]; norm_num)
      (by rw [hdist, maxDist_eq]; norm_num) (by rw [habs, maxMag_eq]; norm_num)]
  rw [htime, hdist, habs, maxTime_eq, maxDist_eq, maxMag_eq]
  norm_num

lemma cms_evHigh_evA : compute_match_score coincKm evHigh evA = 21 / 25 := by
  have habs : |evHigh.magnitude_value - evA.magnitude_value| = 2 / 5 := by
    simp only [evHigh, evA]
    rw [abs_of_nonneg (by norm_num)]
    norm_num
  have htime : |evHigh.origin_time_utc - evA.origin_time_utc| = 0 := by
    simp only [evHigh, evA]; norm_num
  have hdist : coincKm evHigh evA = 0 := by simp [coincKm, evHigh, evA]
  rw [cms_formula coincKm evHigh evA (by rw [htime, maxTime_eq]; norm_num)
      (by rw [hdist, maxDist_eq]; norm_num) (by rw [habs, maxMag_eq]; norm_num)]
  rw [htime, hdist, habs, maxTime_eq, maxDist_eq, maxMag_eq]
  norm_num

lemma sort_threeEvents : sortByTime [evA, evLow, evHigh] = [evA, evLow, evHigh] := by
  norm_num [sortByTime, List.insertionSort, List.orderedInsert, evA, evLow, evHigh]

lemma subCluster_threeEvents :
    sub_cluster_time_mag coincKm [evA, evLow, evHigh] =
      [⟨[evA, evLow, evHigh], 21 / 25⟩] := by
  unfold sub_cluster_time_mag
  rw [sort_threeEvents]
  simp only [List.foldl_cons, List.foldl_nil]
  rw [subScan_nil, applyJoin_none]
  have hanch1 : (⟨[evA], 0⟩ : Cluster).anchor = evA := rfl
  rw [List.nil_append]
  rw [subScan_one, hanch1]
  rw [if_pos ⟨by simp only [evLow, evA]; rw [maxTime_eq]; norm_num,
      by simp only [evLow, evA]; rw [maxMag_eq, abs_of_nonpos (by norm_num)]; norm_num⟩]
  rw [cms_evLow_evA]
  rw [if_pos ⟨by rw [thr_eq]; norm_num, by norm_num⟩]
  rw [applyJoin_zero]
  have hmax1 : max (⟨[evA], 0⟩ : Cluster).best_score (21 / 25 : ℚ) = 21 / 25 := by
    simp only []
    rw [max_eq_right (by norm_num)]
  rw [hmax1]
  have hmem1 : (⟨[evA], 0⟩ : Cluster).members ++ [evLow] = [evA, evLow] := rfl
  rw [hmem1]
  have hanch2 : (⟨[evA, evLow], 21 / 25⟩ : Cluster).anchor = evA := rfl
  rw [subScan_one, hanch2]
  rw [if_pos ⟨by simp only [evHigh, evA]; rw [maxTime_eq]; norm_num,
      by simp only [evHigh, evA]; rw [maxMag_eq, abs_of_nonneg (by norm_num)]; norm_num⟩]
  rw [cms_evHigh_evA]
  rw [if_pos ⟨by rw [thr_eq]; norm_num, by norm_num⟩]
  rw [applyJoin_zero]
  have hmax2 : max (⟨[evA, evLow], 21 / 25⟩ : Cluster).best_score (21 / 25 : ℚ) = 21 / 25 := by
    simp only []
    rw [max_self]
  rw [hmax2]
  rfl

/-- Counterexample to C2 as stated: three coincident simultaneous events
with magnitudes 5.0, 4.6 and 5.4 end up in one cluster (each joins the
anchor of magnitude 5.0 with score 0.84), yet the pair of members with
magnitudes 4.6 and 5.4 differs by 0.8 > 0.5, violating the claimed bound
for every pair of members of a cluster. -/
theorem claim_C2_counterexample :
    sub_cluster_time_mag coincKm [evA, evLow, evHigh] = [⟨[evA, evLow, evHigh], 21 / 25⟩]
    ∧ cluster_events_greedy coincKm [evA, evLow, evHigh] = [⟨[evA, evLow, evHigh], 21 / 25⟩]
    ∧ evLow ∈ (⟨[evA, evLow, evHigh], 21 / 25⟩ : Cluster).members
    ∧ evHigh ∈ (⟨[evA, evLow, evHigh], 21 / 25⟩ : Cluster).members
    ∧ MAX_MAG_DIFF < |evLow.magnitude_value - evHigh.magnitude_value| := by
  refine ⟨subCluster_threeEvents, ?_, by simp, by simp, ?_⟩
  · rw [greedy_eq_sub]
    exact subCluster_threeEvents
  · simp only [evLow, evHigh]
    rw [maxMag_eq, abs_of_nonpos (by norm_num)]
    norm_num

/-! ## Behaviour at the dt = 30 s boundary -/

lemma join_at_dt30 (dist : DistFn) (a b : EventRecord)
    (ht : b.origin_time_utc - a.origin_time_utc = 30)
    (hd : dist b a = 0)
    (hm : b.magnitude_value = a.magnitude_value) :
    compute_match_score dist b a = 3 / 5
      ∧ sub_cluster_time_mag dist [a, b] = [⟨[a, b], 3 / 5⟩] := by
  have habs_t : |b.origin_time_utc - a.origin_time_utc| = 30 := by
    rw [ht]; norm_num
  have habs_m : |b.magnitude_value - a.magnitude_value| = 0 := by
    rw [hm, sub_self, abs_zero]
  have hscore : compute_match_score dist b a = 3 / 5 := by
    rw [cms_formula dist b a (by rw [habs_t, maxTime_eq]) (by rw [hd, maxDist_eq]; norm_num)
        (by rw [habs_m, maxMag_eq]; norm_num)]
    rw [habs_t, habs_m, hd, maxTime_eq, maxDist_eq, maxMag_eq]
    norm_num
  refine ⟨hscore, ?_⟩
  have hsort : sortByTime [a, b] = [a, b] := by
    simp only [sortByTime, List.insertionSort, List.orderedInsert]
    rw [if_pos (by linarith)]
  unfold sub_cluster_time_mag
  rw [hsort]
  simp only [List.foldl_cons, List.foldl_nil]
  rw [subScan_nil, applyJoin_none, List.nil_append]
  have hanch : (⟨[a], 0⟩ : Cluster).anchor = a := rfl
  rw [subScan_one, hanch]
  rw [if_pos ⟨by rw [habs_t, maxTime_eq], by rw [habs_m, maxMag_eq]; norm_num⟩]
  rw [hscore]
  rw [if_pos ⟨by rw [thr_eq], by norm_num⟩]
  rw [applyJoin_zero]
  have hmax : max (⟨[a], 0⟩ : Cluster).best_score (3 / 5 : ℚ) = 3 / 5 := by
    simp only []
    rw [max_eq_right (by norm_num)]
  rw [hmax]
  rfl

/-- C1 as amended.  An event b exactly 30.000 s from the anchor a and
otherwise identical in position and magnitude scores 3/5, not 0: the
time term 0.4 (1 - dt/30) vanishes but the distance and magnitude terms
contribute 0.4 + 0.2 = 0.6, which meets both the dt <= 30 gate and the
score >= 0.6 threshold, so the event does join the cluster of the
anchor. -/
theorem claim_C1 (dist : DistFn) (a b : EventRecord)
    (ht : b.origin_time_utc - a.origin_time_utc = 30)
    (hd : dist b a = 0)
    (hm : b.magnitude_value = a.magnitude_value) :
    compute_match_score dist b a = 3 / 5
      ∧ MATCH_SCORE_THRESHOLD ≤ compute_match_score dist b a
      ∧ sub_cluster_time_mag dist [a, b] = [⟨[a, b], 3 / 5⟩] := by
  obtain ⟨h1, h2⟩ := join_at_dt30 dist a b ht hd hm
  exact ⟨h1, by rw [h1, thr_eq], h2⟩

/-- Counterexample to C1 as stated: for the concrete events evA and evB30,
identical except for a 30.000 s time offset, the match score is 3/5, not 0,
and the sub-clustering pass puts both events into a single cluster instead
of keeping them apart. -/
theorem claim_C1_counterexample :
    compute_match_score coincKm evB30 evA = 3 / 5
      ∧ compute_match_score coincKm evB30 evA ≠ 0
      ∧ sub_cluster_time_mag coincKm [evA, evB30] = [⟨[evA, evB30], 3 / 5⟩]
      ∧ (sub_cluster_time_mag coincKm [evA, evB30]).length = 1 := by
  obtain ⟨h1, h2⟩ := join_at_dt30 coincKm evA evB30
    (by simp only [evA, evB30]; norm_num)
    (by simp [coincKm, evA, evB30])
    rfl
  refine ⟨h1, ?_, h2, by rw [h2]; rfl⟩
  rw [h1]
  norm_num

/-- Witness for C1 at the concrete events evA and evB30 under the
coincident-coordinate distance model. -/
theorem claim_C1_witness :
    compute_match_score coincKm evB30 evA = 3 / 5
      ∧ MATCH_SCORE_THRESHOLD ≤ compute_match_score coincKm evB30 evA
      ∧ sub_cluster_time_mag coincKm [evA, evB30] = [⟨[evA, evB30], 3 / 5⟩] :=
  claim_C1 coincKm evA evB30
    (by simp only [evA, evB30]; norm_num)
    (by simp [coincKm, evA, evB30])
    rfl

/-! ## Retry loop bounds and backoff sequence -/

lemma fetchAux_attempts (base : ℚ) (ok : ℕ → Bool) :
    ∀ (r a : ℕ), (fetchAux base ok a r).1 ≤ r := by
  intro r
  induction r with
  | zero => intro a; exact le_refl 0
  | succ r ih =>
      intro a
      unfold fetchAux
      by_cases hok : ok a
      · rw [if_pos hok]; exact Nat.succ_le_succ (Nat.zero_le r)
      · rw [if_neg hok]
        by_cases hr : r = 0
        · rw [if_pos hr]; exact Nat.succ_le_succ (Nat.zero_le r)
        · rw [if_neg hr]
          exact Nat.succ_le_succ (ih (a + 1))

lemma fetchAux_sleeps (base : ℚ) (ok : ℕ → Bool) :
    ∀ (r a : ℕ), ∃ n, n ≤ r - 1 ∧ (fetchAux base ok a r).2.1 =
      (List.range n).map (fun k => base ^ (a + k)) := by
  intro r
  induction r with
  | zero => intro a; exact ⟨0, by omega, rfl⟩
  | succ r ih =>
      intro a
      unfold fetchAux
      by_cases hok : ok a
      · rw [if_pos hok]; exact ⟨0, by omega, rfl⟩
      · rw [if_neg hok]
        by_cases hr : r = 0
        · rw [if_pos hr]; exact ⟨0, by omega, rfl⟩
        · rw [if_neg hr]
          obtain ⟨n, hn, hs⟩ := ih (a + 1)
          refine ⟨n + 1, by omega, ?_⟩
          simp only [hs]
          rw [List.range_succ_eq_map]
          simp only [List.map_cons, List.map_map, Nat.add_zero]
          congr 1
          apply List.map_congr_left
          intro k _
          simp only [Function.comp]
          congr 1
          omega

/-- C3 as amended.  The fetch loop of _fetch_source performs at most
max_retries + 1 HTTP attempts, and the list of sleeps between consecutive
attempts is [base ^ 0, base ^ 1, ..., base ^ (n-1)] for some n bounded by
max_retries: the sleep before the k-th retry (k = 1, 2, ...) is
retry_backoff_base ^ (k - 1) seconds, so the first retry waits
base ^ 0 = 1 second, not base ^ 1 as claimed. -/
theorem claim_C3 (base : ℚ) (ok : ℕ → Bool) (max_retries : ℕ) :
    (fetchSource base ok max_retries).1 ≤ max_retries + 1
    ∧ ∃ n, n ≤ max_retries ∧ (fetchSource base ok max_retries).2.1 =
        (List.range n).map (fun k => base ^ k) := by
  constructor
  · exact fetchAux_attempts base ok (max_retries + 1) 0
  · obtain ⟨n, hn, hs⟩ := fetchAux_sleeps base ok (max_retries + 1) 0
    refine ⟨n, by omega, ?_⟩
    unfold fetchSource
    rw [hs]
    apply List.map_congr_left
    intro k _
    rw [Nat.zero_add]

/-- Counterexample to C3 as stated: with retry_backoff_base = 3,
max_retries = 2 and every attempt failing, the loop makes 3 attempts and
sleeps [1, 3] seconds (base ^ 0, base ^ 1) before the two retries, not
[3, 9] seconds (base ^ 1, base ^ 2) as the claim predicts for the first
and second retry. -/
theorem claim_C3_counterexample :
    fetchSource 3 (fun _ => false) 2 = (3, ([1, 3], false))
    ∧ ([1, 3] : List ℚ) ≠ [3 ^ 1, 3 ^ 2] := by
  constructor
  · norm_num [fetchSource, fetchAux]
  · intro h
    have h1 : (1 : ℚ) = 3 ^ 1 := by
      have h2 := congrArg (fun l => l.headI) h
      simpa [List.headI] using h2
    norm_num at h1

/-! ## Dead-letter behaviour of the parse stage -/

/-- C4 as amended.  When parser.parse raises, the parse stage of
run_source_pipeline emits exactly one dead-letter row carrying the first
10000 characters of the payload and a parse-error message, with zero
accepted events.  The QuakeML parser, however, catches the top-level
ET.ParseError itself and returns an empty event list, so for the
QuakeML/XML sources an unparseable payload produces zero accepted events
and zero dead letters — not the single dead letter the claim asserts for
every source. -/
theorem claim_C4 (validate : NEvent → List String) (source raw msg : String)
    (etFailed : Option (List NEvent)) :
    parseStage validate source raw (.error msg) =
      ([], [⟨source, none, raw.take 10000, ["Parse error: " ++ msg]⟩])
    ∧ pipelineQuakeml validate source raw false none = ([], [])
    ∧ (etFailed = none → quakemlParseTop false etFailed = []) := by
  refine ⟨rfl, rfl, ?_⟩
  intro h
  rw [h]
  rfl

/-- Counterexample to C4 as stated: for a QuakeML source fed the concrete
unparseable payload, the run yields zero accepted events and an empty
dead-letter list, whose length 0 differs from the single dead-letter row
the claim requires. -/
theorem claim_C4_counterexample :
    pipelineQuakeml (fun _ => []) "isc" "<not>valid<xml" false none = ([], [])
    ∧ (pipelineQuakeml (fun _ => []) "isc" "<not>valid<xml" false none).2.length ≠ 1 := by
  refine ⟨rfl, ?_⟩
  show (0 : ℕ) ≠ 1
  norm_num

/-! ## Characterisation of Python min over a list with a key -/

lemma minByFirst_decomp {α : Type} (f : α → ℕ) :
    ∀ (xs : List α) (x : α), ∃ l1 l2,
      x :: xs = l1 ++ minByFirst f x xs :: l2
      ∧ (∀ y ∈ l1, f (minByFirst f x xs) < f y)
      ∧ (∀ y ∈ l2, f (minByFirst f x xs) ≤ f y) := by
  intro xs
  induction xs with
  | nil =>
      intro x
      exact ⟨[], [], rfl, by simp, by simp⟩
  | cons y ys ih =>
      intro x
      have hstep : minByFirst f x (y :: ys) = minByFirst f (if f y < f x then y else x) ys := rfl
      by_cases hc : f y < f x
      · rw [hstep, if_pos hc]
        obtain ⟨l1, l2, hdec, hlt, hle⟩ := ih y
        have hey : f (minByFirst f y ys) ≤ f y := by
          cases l1 with
          | nil =>
              rw [List.nil_append] at hdec
              injection hdec with h1 h2
              rw [← h1]
          | cons w l1x =>
              rw [List.cons_append] at hdec
              injection hdec with h1 h2
              have hw := hlt w (List.mem_cons_self _ _)
              rw [← h1] at hw
              exact le_of_lt hw
        refine ⟨x :: l1, l2, by rw [List.cons_append, ← hdec], ?_, hle⟩
        intro z hz
        rcases List.mem_cons.1 hz with rfl | hz
        · exact lt_of_le_of_lt hey hc
        · exact hlt z hz
      · rw [hstep, if_neg hc]
        push_neg at hc
        obtain ⟨l1, l2, hdec, hlt, hle⟩ := ih x
        cases l1 with
        | nil =>
            rw [List.nil_append] at hdec
            injection hdec with h1 h2
            refine ⟨[], y :: l2, ?_, by simp, ?_⟩
            · rw [List.nil_append, ← h1, ← h2]
            · intro z hz
              rcases List.mem_cons.1 hz with rfl | hz
              · rw [← h1]; exact hc
              · exact hle z hz
        | cons w l1x =>
            rw [List.cons_append] at hdec
            injection hdec with h1 h2
            have hex : f (minByFirst f x ys) < f x := by
              have hw := hlt w (List.mem_cons_self _ _)
              rw [← h1] at hw
              exact hw
            refine ⟨x :: y :: l1x, l2, ?_, ?_, hle⟩
            · rw [List.cons_append, List.cons_append, ← h2]
            · intro z hz
              rcases List.mem_cons.1 hz with rfl | hz
              · exact hex
              · rcases List.mem_cons.1 hz with rfl | hz
                · exact lt_of_lt_of_le hex hc
                · exact hlt z (List.mem_cons_of_mem _ hz)

lemma minByFirst_mem {α : Type} (f : α → ℕ) (x : α) (xs : List α) :
    minByFirst f x xs ∈ x :: xs := by
  obtain ⟨l1, l2, hdec, -, -⟩ := minByFirst_decomp f xs x
  rw [hdec]
  exact List.mem_append.2 (Or.inr (List.mem_cons_self _ _))

lemma minByFirst_le {α : Type} (f : α → ℕ) (x : α) (xs : List α) :
    ∀ y ∈ x :: xs, f (minByFirst f x xs) ≤ f y := by
  obtain ⟨l1, l2, hdec, hlt, hle⟩ := minByFirst_decomp f xs x
  intro y hy
  rw [hdec] at hy
  rcases List.mem_append.1 hy with hy | hy
  · exact le_of_lt (hlt y hy)
  · rcases List.mem_cons.1 hy with rfl | hy
    · exact le_refl _
    · exact hle y hy

/-! ## Preferred-record selection -/

lemma sourceRank_lt_iff (pr : List String) (e : EventRecord) :
    sourceRank pr e < pr.length ↔ e.source ∈ pr := by
  unfold sourceRank
  rcases hf : pr.findIdx? (· == e.source) with _ | i
  · simp only [Option.getD_none]
    constructor
    · intro h; exact absurd h (lt_irrefl _)
    · intro hmem
      rw [List.findIdx?_eq_none_iff] at hf
      have hx := hf e.source hmem
      simp at hx
  · simp only [Option.getD_some]
    rw [List.findIdx?_eq_some_iff_getElem] at hf
    obtain ⟨hi, hp, -⟩ := hf
    constructor
    · intro _
      have hps : pr[i] = e.source := by simpa using hp
      rw [← hps]
      exact List.getElem_mem hi
    · intro _
      exact hi

/-- C8.  For every nonempty cluster, _select_preferred returns some member
e of the candidate set; e is reviewed whenever any member is reviewed
(the candidate set is then the reviewed members, otherwise all members);
e has minimal rank in the region-aware priority list computed at the
simple-mean centroid of all members, and it is the first candidate
attaining that rank, so ties — including ties among candidates whose
sources are absent from the list, which all rank at the list length, after
every listed source — break by first insertion order. -/
theorem claim_C8 (c : Cluster) (m0 : EventRecord) (rest : List EventRecord)
    (h : c.members = m0 :: rest) :
    ∃ e, select_preferred c = some e
      ∧ e ∈ clusterCandidates c
      ∧ ((∃ x ∈ c.members, x.status = "reviewed") → e.status = "reviewed")
      ∧ (∀ y ∈ clusterCandidates c,
          sourceRank (clusterPriority c) e ≤ sourceRank (clusterPriority c) y)
      ∧ (∃ l1 l2, clusterCandidates c = l1 ++ e :: l2
          ∧ ∀ y ∈ l1, sourceRank (clusterPriority c) e < sourceRank (clusterPriority c) y)
      ∧ (∀ y : EventRecord,
          (sourceRank (clusterPriority c) y < (clusterPriority c).length ↔
            y.source ∈ clusterPriority c)) := by
  have hne : clusterCandidates c ≠ [] := by
    unfold clusterCandidates
    split_ifs with hrev
    · rw [h]; exact List.cons_ne_nil m0 rest
    · exact hrev
  rcases hcand : clusterCandidates c with _ | ⟨x, xs⟩
  · exact absurd hcand hne
  have hsel : select_preferred c = some (minByFirst (sourceRank (clusterPriority c)) x xs) := by
    unfold select_preferred
    rw [hcand]
  refine ⟨minByFirst (sourceRank (clusterPriority c)) x xs, hsel, ?_, ?_, ?_, ?_, ?_⟩
  · exact minByFirst_mem _ x xs
  · rintro ⟨z, hz, hzs⟩
    have hzrev : z ∈ reviewedMembers c := by
      unfold reviewedMembers
      rw [List.mem_filter]
      exact ⟨hz, by rw [hzs]; rfl⟩
    have hrevne : reviewedMembers c ≠ [] := by
      intro hnil
      rw [hnil] at hzrev
      exact absurd hzrev (List.not_mem_nil z)
    have hcc : clusterCandidates c = reviewedMembers c := by
      unfold clusterCandidates
      rw [if_neg hrevne]
    have hmemrev : minByFirst (sourceRank (clusterPriority c)) x xs ∈ reviewedMembers c := by
      rw [← hcc, hcand]
      exact minByFirst_mem _ x xs
    unfold reviewedMembers at hmemrev
    rw [List.mem_filter] at hmemrev
    exact eq_of_beq hmemrev.2
  · exact minByFirst_le _ x xs
  · obtain ⟨l1, l2, hdec, hlt, -⟩ := minByFirst_decomp (sourceRank (clusterPriority c)) xs x
    exact ⟨l1, l2, hdec, hlt⟩
  · intro y
    exact sourceRank_lt_iff _ y

/-- Witness for C8 at a concrete two-member cluster with one reviewed
member. -/
theorem claim_C8_witness :
    ∃ e, select_preferred ⟨[evA, evHigh], 0⟩ = some e
      ∧ e ∈ clusterCandidates ⟨[evA, evHigh], 0⟩
      ∧ ((∃ x ∈ (⟨[evA, evHigh], 0⟩ : Cluster).members, x.status = "reviewed") →
          e.status = "reviewed")
      ∧ (∀ y ∈ clusterCandidates ⟨[evA, evHigh], 0⟩,
          sourceRank (clusterPriority ⟨[evA, evHigh], 0⟩) e
            ≤ sourceRank (clusterPriority ⟨[evA, evHigh], 0⟩) y)
      ∧ (∃ l1 l2, clusterCandidates ⟨[evA, evHigh], 0⟩ = l1 ++ e :: l2
          ∧ ∀ y ∈ l1, sourceRank (clusterPriority ⟨[evA, evHigh], 0⟩) e
              < sourceRank (clusterPriority ⟨[evA, evHigh], 0⟩) y)
      ∧ (∀ y : EventRecord,
          (sourceRank (clusterPriority ⟨[evA, evHigh], 0⟩) y
              < (clusterPriority ⟨[evA, evHigh], 0⟩).length ↔
            y.source ∈ clusterPriority ⟨[evA, evHigh], 0⟩)) :=
  claim_C8 ⟨[evA, evHigh], 0⟩ evA [evHigh] rfl

/-! ## QuakeML magnitude preference -/

lemma magScore_lt_iff (y : MagnitudeEl) :
    magScore y < MAG_PREFERENCE.length ↔
      ∃ t, y.mtype = some t ∧ lowerStr t ∈ MAG_PREFERENCE := by
  unfold magScore
  rcases hmt : y.mtype with _ | t
  · simp [hmt]
  · simp only [hmt]
    rcases hf : MAG_PREFERENCE.findIdx? (· == lowerStr t) with _ | i
    · simp only [hf]
      constructor
      · intro habs
        exact absurd habs (lt_irrefl _)
      · rintro ⟨t2, ht2, hmem⟩
        injection ht2 with ht2
        subst ht2
        rw [List.findIdx?_eq_none_iff] at hf
        have hx := hf (lowerStr t) hmem
        simp at hx
    · simp only [hf]
      rw [List.findIdx?_eq_some_iff_getElem] at hf
      obtain ⟨hi, hp, -⟩ := hf
      constructor
      · intro _
        refine ⟨t, rfl, ?_⟩
        have hps : MAG_PREFERENCE[i] = lowerStr t := by simpa using hp
        rw [← hps]
        exact List.getElem_mem hi
      · intro _
        exact hi

/-- Magnitude elements of the ISC three-magnitude scenario. -/
def iscMagMb : MagnitudeEl := ⟨some "mb", 4.8⟩

/-- Preferred magnitude of the ISC scenario, type Mw, value 5.1. -/
def iscMagMw : MagnitudeEl := ⟨some "Mw", 5.1⟩

/-- Surface-wave magnitude of the ISC scenario. -/
def iscMagMs : MagnitudeEl := ⟨some "Ms", 4.5⟩

/-- C9.  With no preferredMagnitudeID, _select_best_magnitude picks the
magnitude whose lower-cased type appears earliest in [mw, mb, ms]:
the selected element attains the minimal preference score, unlisted and
missing types score the list length and hence rank after every listed
type, and the selected element is the first of its score in document
order.  Concretely, for the ISC event carrying mb 4.8, Mw 5.1 and Ms 4.5
the selected magnitude is the Mw element, parsed as value 5.1 with
lower-cased type mw. -/
theorem claim_C9 :
    (∀ (m : MagnitudeEl) (rest : List MagnitudeEl), ∃ sel,
      select_best_magnitude (m :: rest) = some sel
      ∧ sel ∈ m :: rest
      ∧ (∀ y ∈ m :: rest, magScore sel ≤ magScore y)
      ∧ (∃ l1 l2, m :: rest = l1 ++ sel :: l2 ∧ ∀ y ∈ l1, magScore sel < magScore y)
      ∧ (∀ y : MagnitudeEl, (magScore y < MAG_PREFERENCE.length ↔
            ∃ t, y.mtype = some t ∧ lowerStr t ∈ MAG_PREFERENCE)))
    ∧ select_best_magnitude [iscMagMb, iscMagMw, iscMagMs] = some iscMagMw
    ∧ parsedMagnitude iscMagMw = (5.1, "mw") := by
  refine ⟨?_, ?_, ?_⟩
  · intro m rest
    refine ⟨minByFirst magScore m rest, rfl, minByFirst_mem _ m rest,
      minByFirst_le _ m rest, ?_, fun y => magScore_lt_iff y⟩
    obtain ⟨l1, l2, hdec, hlt, -⟩ := minByFirst_decomp magScore rest m
    exact ⟨l1, l2, hdec, hlt⟩
  · unfold select_best_magnitude minByFirst
    simp only [List.foldl_cons, List.foldl_nil]
    rw [if_pos (show magScore iscMagMw < magScore iscMagMb from by decide)]
    rw [if_neg (show ¬ magScore iscMagMs < magScore iscMagMw from by decide)]
  · unfold parsedMagnitude iscMagMw
    simp only [Option.getD_some]
    exact congrArg (Prod.mk (5.1 : ℚ)) (by decide)

/-- Witness for C9: the general selection property instantiated at the
concrete ISC magnitude list. -/
theorem claim_C9_witness :
    ∃ sel, select_best_magnitude (iscMagMb :: [iscMagMw, iscMagMs]) = some sel
      ∧ sel ∈ iscMagMb :: [iscMagMw, iscMagMs]
      ∧ (∀ y ∈ iscMagMb :: [iscMagMw, iscMagMs], magScore sel ≤ magScore y)
      ∧ (∃ l1 l2, iscMagMb :: [iscMagMw, iscMagMs] = l1 ++ sel :: l2
          ∧ ∀ y ∈ l1, magScore sel < magScore y)
      ∧ (∀ y : MagnitudeEl, (magScore y < MAG_PREFERENCE.length ↔
            ∃ t, y.mtype = some t ∧ lowerStr t ∈ MAG_PREFERENCE)) :=
  claim_C9.1 iscMagMb [iscMagMw, iscMagMs]

/-! ## Weighted centroid totals -/

lemma weightedSums_total (priority : List String) :
    ∀ (members : List EventRecord) (acc : ℚ × ℚ × ℚ × ℚ),
      acc.2.2.2 + members.length ≤
        (members.foldl (fun acc m =>
          (fun weight =>
            (acc.1 + m.latitude * weight, acc.2.1 + m.longitude * weight,
             acc.2.2.1 + m.depth_km * weight, acc.2.2.2 + weight))
            (max 1 ((priority.length : ℚ) - sourceRank priority m))) acc).2.2.2 := by
  intro members
  induction members with
  | nil =>
      intro acc
      simp
  | cons m ms ih =>
      intro acc
      simp only [List.foldl_cons, List.length_cons]
      have hw : (1 : ℚ) ≤ max 1 ((priority.length : ℚ) - sourceRank priority m) :=
        le_max_left 1 _
      have hrec := ih (acc.1 + m.latitude * max 1 ((priority.length : ℚ) - sourceRank priority m),
        acc.2.1 + m.longitude * max 1 ((priority.length : ℚ) - sourceRank priority m),
        acc.2.2.1 + m.depth_km * max 1 ((priority.length : ℚ) - sourceRank priority m),
        acc.2.2.2 + max 1 ((priority.length : ℚ) - sourceRank priority m))
      simp only at hrec
      push_cast
      push_cast at hrec
      linarith

lemma weightedSums_total_ge (priority : List String) (members : List EventRecord) :
    (members.length : ℚ) ≤ (weightedSums priority members).2.2.2 := by
  have hlem2 : (0 : ℚ) + members.length ≤ (weightedSums priority members).2.2.2 :=
    weightedSums_total priority members (0, 0, 0, 0)
  linarith

/-- C10.  For every nonempty cluster, each member weight
max 1 (N - rank) is at least 1, the total weight accumulated by
_weighted_mean is at least the member count and hence nonzero, so the
total_weight == 0 fallback branch returning the anchor coordinates is
unreachable and the function returns the weighted means over the
members. -/
theorem claim_C10 (c : Cluster) (m0 : EventRecord) (rest : List EventRecord)
    (h : c.members = m0 :: rest) :
    (∀ m : EventRecord,
      1 ≤ max 1 (((clusterPriority c).length : ℚ) - sourceRank (clusterPriority c) m))
    ∧ 1 ≤ (weightedSums (clusterPriority c) c.members).2.2.2
    ∧ (weightedSums (clusterPriority c) c.members).2.2.2 ≠ 0
    ∧ weighted_mean c =
        ((weightedSums (clusterPriority c) c.members).1
            / (weightedSums (clusterPriority c) c.members).2.2.2,
         (weightedSums (clusterPriority c) c.members).2.1
            / (weightedSums (clusterPriority c) c.members).2.2.2,
         (weightedSums (clusterPriority c) c.members).2.2.1
            / (weightedSums (clusterPriority c) c.members).2.2.2) := by
  have htot : 1 ≤ (weightedSums (clusterPriority c) c.members).2.2.2 := by
    have hws := weightedSums_total_ge (clusterPriority c) c.members
    refine le_trans ?_ hws
    rw [h]
    simp only [List.length_cons]
    push_cast
    have hq : (0 : ℚ) ≤ (rest.length : ℚ) := by positivity
    linarith
  have hne : (weightedSums (clusterPriority c) c.members).2.2.2 ≠ 0 := by
    intro h0
    rw [h0] at htot
    norm_num at htot
  refine ⟨fun m => le_max_left 1 _, htot, hne, ?_⟩
  unfold weighted_mean
  simp only []
  rw [if_neg hne]

/-- Witness for C10 at a concrete singleton cluster. -/
theorem claim_C10_witness :
    (∀ m : EventRecord,
      1 ≤ max 1 (((clusterPriority ⟨[evA], 0⟩).length : ℚ)
          - sourceRank (clusterPriority ⟨[evA], 0⟩) m))
    ∧ 1 ≤ (weightedSums (clusterPriority ⟨[evA], 0⟩) (⟨[evA], 0⟩ : Cluster).members).2.2.2
    ∧ (weightedSums (clusterPriority ⟨[evA], 0⟩) (⟨[evA], 0⟩ : Cluster).members).2.2.2 ≠ 0
    ∧ weighted_mean ⟨[evA], 0⟩ =
        ((weightedSums (clusterPriority ⟨[evA], 0⟩) (⟨[evA], 0⟩ : Cluster).members).1
            / (weightedSums (clusterPriority ⟨[evA], 0⟩) (⟨[evA], 0⟩ : Cluster).members).2.2.2,
         (weightedSums (clusterPriority ⟨[evA], 0⟩) (⟨[evA], 0⟩ : Cluster).members).2.1
            / (weightedSums (clusterPriority ⟨[evA], 0⟩) (⟨[evA], 0⟩ : Cluster).members).2.2.2,
         (weightedSums (clusterPriority ⟨[evA], 0⟩) (⟨[evA], 0⟩ : Cluster).members).2.2.1
            / (weightedSums (clusterPriority ⟨[evA], 0⟩) (⟨[evA], 0⟩ : Cluster).members).2.2.2) :=
  claim_C10 ⟨[evA], 0⟩ evA [] rfl

/-! ## Order properties of the uid comparison -/

lemma natListLe_total : ∀ (as2 bs : List ℕ), natListLe as2 bs = true ∨ natListLe bs as2 = true := by
  intro as2
  induction as2 with
  | nil => intro bs; exact Or.inl rfl
  | cons a as2 ih =>
      intro bs
      cases bs with
      | nil => exact Or.inr rfl
      | cons b bs =>
          simp only [natListLe]
          by_cases hab : a < b
          · rw [if_pos hab]; exact Or.inl rfl
          · by_cases hba : b < a
            · rw [if_neg hab, if_pos hba, if_pos hba]
              exact Or.inr rfl
            · rw [if_neg hab, if_neg hba, if_neg hba, if_neg hab]
              exact ih bs

lemma natListLe_trans :
    ∀ (as2 bs cs : List ℕ), natListLe as2 bs = true → natListLe bs cs = true →
      natListLe as2 cs = true := by
  intro as2
  induction as2 with
  | nil => intro bs cs h1 h2; rfl
  | cons a as2 ih =>
      intro bs cs h1 h2
      cases bs with
      | nil => simp [natListLe] at h1
      | cons b bs =>
          cases cs with
          | nil => simp [natListLe] at h2
          | cons c cs =>
              simp only [natListLe] at h1 h2 ⊢
              by_cases hab : a < b
              · by_cases hbc : b < c
                · rw [if_pos (by omega)]
                · rw [if_neg hbc] at h2
                  by_cases hcb : c < b
                  · rw [if_pos hcb] at h2; exact absurd h2 (by simp)
                  · rw [if_pos (show a < c by omega)]
              · rw [if_neg hab] at h1
                by_cases hba : b < a
                · rw [if_pos hba] at h1; exact absurd h1 (by simp)
                · rw [if_neg hba] at h1
                  have haeb : a = b := by omega
                  subst haeb
                  by_cases hac : a < c
                  · rw [if_pos hac]
                  · rw [if_neg hac]
                    by_cases hca : c < a
                    · rw [if_neg hac, if_pos hca] at h2
                      exact absurd h2 (by simp)
                    · rw [if_neg hca]
                      rw [if_neg hac, if_neg hca] at h2
                      exact ih bs cs h1 h2

lemma natListLe_antisymm :
    ∀ (as2 bs : List ℕ), natListLe as2 bs = true → natListLe bs as2 = true → as2 = bs := by
  intro as2
  induction as2 with
  | nil =>
      intro bs h1 h2
      cases bs with
      | nil => rfl
      | cons b bs => simp [natListLe] at h2
  | cons a as2 ih =>
      intro bs h1 h2
      cases bs with
      | nil => simp [natListLe] at h1
      | cons b bs =>
          simp only [natListLe] at h1 h2
          by_cases hab : a < b
          · rw [if_neg (show ¬ b < a by omega), if_pos hab] at h2
            exact absurd h2 (by simp)
          · by_cases hba : b < a
            · rw [if_neg hab, if_pos hba] at h1
              exact absurd h1 (by simp)
            · rw [if_neg hab, if_neg hba] at h1
              rw [if_neg hba, if_neg hab] at h2
              have haeb : a = b := by omega
              rw [haeb, ih bs h1 h2]

lemma charToNat_injective : Function.Injective Char.toNat := by
  intro c d h
  exact Char.ofNat_toNat c ▸ Char.ofNat_toNat d ▸ congrArg Char.ofNat h

lemma strLeB_antisymm (a b : String) (h1 : strRel a b) (h2 : strRel b a) : a = b := by
  unfold strRel strLeB at h1 h2
  have hdata : a.data.map Char.toNat = b.data.map Char.toNat :=
    natListLe_antisymm _ _ h1 h2
  have hd : a.data = b.data := List.map_injective_iff.2 charToNat_injective hdata
  cases a with
  | mk da =>
      cases b with
      | mk db =>
          simp only at hd
          rw [hd]

instance : IsTotal String strRel := ⟨fun a b => natListLe_total _ _⟩

instance : IsTrans String strRel := ⟨fun a b c h1 h2 => natListLe_trans _ _ _ h1 h2⟩

instance : IsAntisymm String strRel := ⟨strLeB_antisymm⟩

lemma insertionSort_strRel_perm_eq (l1 l2 : List String) (h : l1.Perm l2) :
    List.insertionSort strRel l1 = List.insertionSort strRel l2 :=
  List.eq_of_perm_of_sorted
    ((List.perm_insertionSort strRel l1).trans (h.trans (List.perm_insertionSort strRel l2).symm))
    (List.sorted_insertionSort strRel l1) (List.sorted_insertionSort strRel l2)

/-- C7 as amended.  The unified event ID is UE- followed by the first 16
lowercase hex characters of the SHA-256 digest of the member event uids
sorted ascending and joined with a pipe; it is therefore identical for any
two clusters carrying the same multiset of event uids, regardless of the
order in which members were added.  Equality of the mere uid sets does not
suffice: duplicated uids change the joined string and hence the digest. -/
theorem claim_C7 (c1 c2 : Cluster)
    (h : (c1.members.map (·.event_uid)).Perm (c2.members.map (·.event_uid))) :
    compute_unified_id c1 = "UE-" ++ (sha256Hex (sortedUidJoin c1)).take 16
    ∧ compute_unified_id c1 = compute_unified_id c2 := by
  refine ⟨rfl, ?_⟩
  unfold compute_unified_id sortedUidJoin
  rw [insertionSort_strRel_perm_eq _ _ h]

/-! ## Concrete records distinguished only by uid and source -/

/-- Record with uid a from usgs. -/
def recUA : EventRecord := ⟨"a", "usgs", 0, 0, 0, 0, 0, "ml", none, none, "automatic"⟩

/-- Record carrying the same uid a, reported by a second source. -/
def recUA2 : EventRecord := ⟨"a", "emsc", 0, 0, 0, 0, 0, "ml", none, none, "automatic"⟩

/-- Record with uid b. -/
def recUB : EventRecord := ⟨"b", "gfz", 0, 0, 0, 0, 0, "ml", none, none, "automatic"⟩

/-- Counterexample to C7 as stated: the clusters with members carrying
uids [a, a, b] and [a, b] have the same set of event uids, yet their
unified IDs differ, because the duplicated uid is kept by the sort and
changes the hashed string from a|b to a|a|b. -/
theorem claim_C7_counterexample :
    ((⟨[recUA, recUA2, recUB], 0⟩ : Cluster).members.map (·.event_uid)).toFinset
      = ((⟨[recUA, recUB], 0⟩ : Cluster).members.map (·.event_uid)).toFinset
    ∧ compute_unified_id ⟨[recUA, recUA2, recUB], 0⟩
        ≠ compute_unified_id ⟨[recUA, recUB], 0⟩ := by
  constructor
  · decide
  · decide

/-- Witness for C7: two clusters listing the same two members in opposite
discovery order receive the same unified ID. -/
theorem claim_C7_witness :
    ((⟨[recUA, recUB], 0⟩ : Cluster).members.map (·.event_uid)).Perm
        ((⟨[recUB, recUA], 0⟩ : Cluster).members.map (·.event_uid))
    ∧ (compute_unified_id ⟨[recUA, recUB], 0⟩
          = "UE-" ++ (sha256Hex (sortedUidJoin ⟨[recUA, recUB], 0⟩)).take 16
        ∧ compute_unified_id ⟨[recUA, recUB], 0⟩
          = compute_unified_id ⟨[recUB, recUA], 0⟩) :=
  ⟨by decide, claim_C7 ⟨[recUA, recUB], 0⟩ ⟨[recUB, recUA], 0⟩ (by decide)⟩

/-- Witness for C4 at a concrete source, payload and parser outcome. -/
theorem claim_C4_witness :
    parseStage (fun _ => []) "isc" "<bad payload" (.error "boom") =
      ([], [⟨"isc", none, ("<bad payload").take 10000, ["Parse error: " ++ "boom"]⟩])
    ∧ pipelineQuakeml (fun _ => []) "isc" "<bad payload" false none = ([], [])
    ∧ ((none : Option (List NEvent)) = none → quakemlParseTop false none = []) :=
  claim_C4 (fun _ => []) "isc" "<bad payload" "boom" none
